import Mathlib

/-!
Verification of the py-rho periodic-grid transformation engine
(`src/pyrho/core/charge_density.py`) against its natural-language
specification.  The Python source is shallowly embedded: numpy arrays of
grid samples become `List ℚ`, 3×3 lattice matrices become
`Fin 3 → Fin 3 → ℚ`, Python exceptions become an `Except PyErr` result,
and the floating-point comparisons of `np.allclose` are modelled exactly
over ℚ with numpy's default tolerances.
-/

namespace PyRho

/-- The error taxonomy of the spec (§7), standing in for the Python
exceptions raised by the source (`ValueError` for the lattice invariant,
`NotImplementedError` for unknown schemes, `IndexError` from list/str
indexing, `TypeError` from invalid operand types). -/
inductive PyErr where
  | invariantError
  | unsupportedScheme
  | shapeError
  | indexError
  | typeError
  deriving DecidableEq

/-- numpy default absolute tolerance 1e-8 (`np.allclose`). -/
def atol : ℚ := 1 / 100000000

/-- numpy default relative tolerance 1e-5 (`np.allclose`). -/
def rtol : ℚ := 1 / 100000

/-- Absolute value on ℚ, written so that it evaluates by cases (the
lattice-theoretic `|·|` does not reduce inside `decide`). -/
def qabs (q : ℚ) : ℚ := if q < 0 then -q else q

lemma qabs_eq (q : ℚ) : qabs q = |q| := by
  unfold qabs
  rcases lt_or_ge q 0 with h | h
  · rw [if_pos h, abs_of_neg h]
  · rw [if_neg (not_lt.mpr h), abs_of_nonneg h]

/-- Elementwise condition of `np.allclose(a, b)`:
`|a - b| <= atol + rtol * |b|`. -/
def close (a b : ℚ) : Prop := qabs (a - b) ≤ atol + rtol * qabs b

lemma close_iff_abs (a b : ℚ) : close a b ↔ |a - b| ≤ atol + rtol * |b| := by
  rw [close, qabs_eq, qabs_eq]

instance (a b : ℚ) : Decidable (close a b) := by unfold close; infer_instance

/-- A 3×3 matrix of rationals (a lattice, or a supercell matrix). -/
abbrev Mat3 := Fin 3 → Fin 3 → ℚ

/-- `np.allclose(A, B)` on 3×3 matrices. -/
def allcloseM (A B : Mat3) : Prop := ∀ i j, close (A i j) (B i j)

instance (A B : Mat3) : Decidable (allcloseM A B) := by
  unfold allcloseM; infer_instance

/-- The identity lattice, used for concrete witnesses. -/
def latI : Mat3 := fun i j => if i = j then 1 else 0

/-- Embedding of `pyrho.core.pgrid.PGrid` as used by this file: a lattice
matrix and the dense grid samples (flattened to a list). -/
structure PGridM where
  lattice : Mat3
  grid_data : List ℚ

/-- Embedding of the pymatgen `Structure` collaborator at its interface
boundary (spec §6): its lattice matrix, its cell volume, its lattice
lengths `abc`, and its fractional site coordinates. -/
structure PyStructure where
  lattice : Mat3
  volume : ℚ
  abc : Fin 3 → ℚ
  sites : List (Fin 3 → ℚ)

/-- A value held by the `pgrids` dict.  The dataclass annotates the dict
as `Dict[str, PGrid]`, but `__post_init__` re-assigns each entry to the
bare ndarray returned by `_normalize_data`; this sum type lets the
embedding record which of the two a given entry actually is. -/
inductive PgridsVal where
  | pg (g : PGridM)
  | arr (a : List ℚ)

/-- Whether a dict entry still holds a `PGrid` object. -/
def isPG : PgridsVal → Bool
  | .pg _ => true
  | .arr _ => false

/-- The grid samples of a dict entry, when it holds a bare array. -/
def dataOf : PgridsVal → Option (List ℚ)
  | .pg _ => none
  | .arr a => some a

/-- The state of a constructed `ChargeDensity` object. -/
structure ChargeDensityObj where
  pgrids : List (String × PgridsVal)
  struct : PyStructure
  normalization : Option String

/-- Embedding of `ChargeDensity._normalize_data` (lines 84–105):
identity when the scheme is `None` or its first character lowercases to
`'n'`; division of every sample by the cell volume when it lowercases to
`'v'`; `NotImplementedError` otherwise.  Indexing `normalization[0]` on
the empty string raises `IndexError`. -/
def normalize_data (normalization : Option String) (volume : ℚ)
    (grid_data : List ℚ) : Except PyErr (List ℚ) :=
  match normalization with
  | none => .ok grid_data
  | some s =>
    match s.data with
    | [] => .error .indexError
    | c :: _ =>
      if c.toLower = 'n' then .ok grid_data
      else if c.toLower = 'v' then .ok (grid_data.map (fun x => x / volume))
      else .error .unsupportedScheme

/-- Embedding of `ChargeDensity._scale_data` (lines 107–124): the inverse
of `normalize_data`, multiplying by the cell volume in the `'v'` case. -/
def scale_data (normalization : Option String) (volume : ℚ)
    (data : List ℚ) : Except PyErr (List ℚ) :=
  match normalization with
  | none => .ok data
  | some s =>
    match s.data with
    | [] => .error .indexError
    | c :: _ =>
      if c.toLower = 'n' then .ok data
      else if c.toLower = 'v' then .ok (data.map (fun x => x * volume))
      else .error .unsupportedScheme

/-- The normalization loop of `__post_init__` (lines 81–82): each dict
entry is re-assigned to the bare array `_normalize_data(v.grid_data)`,
in iteration order, stopping at the first raised exception. -/
def normAll (normalization : Option String) (volume : ℚ) :
    List (String × PGridM) → Except PyErr (List (String × PgridsVal))
  | [] => .ok []
  | p :: ps =>
    match normalize_data normalization volume p.2.grid_data with
    | .error e => .error e
    | .ok d =>
      match normAll normalization volume ps with
      | .error e => .error e
      | .ok rest => .ok ((p.1, PgridsVal.arr d) :: rest)

/-- Embedding of `ChargeDensity.__post_init__` (lines 69–82): first the
lattice invariant check `np.allclose(structure.lattice, lattice)` for
every grid (raising `ValueError("Lattices are not identical")`, the
spec's `InvariantError`), then the in-place normalization of every
entry. -/
def chargeDensity_init (pgrids : List (String × PGridM)) (s : PyStructure)
    (normalization : Option String) : Except PyErr ChargeDensityObj :=
  if ∀ p ∈ pgrids, allcloseM s.lattice p.2.lattice then
    match normAll normalization s.volume pgrids with
    | .error e => .error e
    | .ok l => .ok { pgrids := l, struct := s, normalization := normalization }
  else .error .invariantError

/-- The export loop of `ChargeDensity.to_Chgcar` (lines 244–247):
`data_dict[k] = self._scale_data(v, normalization="vasp")` — note the
scheme is hardcoded to `"vasp"`, not taken from the object.  A `v` that
were still a `PGrid` object would make the multiplication inside
`_scale_data` a `TypeError`. -/
def exportAll (volume : ℚ) :
    List (String × PgridsVal) → Except PyErr (List (String × List ℚ))
  | [] => .ok []
  | (_, PgridsVal.pg _) :: _ => .error .typeError
  | (k, PgridsVal.arr a) :: ps =>
    match scale_data (some "vasp") volume a with
    | .error e => .error e
    | .ok d =>
      match exportAll volume ps with
      | .error e => .error e
      | .ok rest => .ok ((k, d) :: rest)

/-- Embedding of `ChargeDensity.to_Chgcar` (lines 236–248), returning the
stored-scale arrays handed to the `Chgcar` writer. -/
def to_Chgcar (o : ChargeDensityObj) : Except PyErr (List (String × List ℚ)) :=
  exportAll o.struct.volume o.pgrids

/-- `np.round` on one entry: round half to even (numpy's banker's
rounding); away from the half-integers it is ordinary rounding to the
nearest integer. -/
def roundEven (q : ℚ) : ℤ :=
  if q - ⌊q⌋ = 1 / 2 then (if ⌊q⌋ % 2 = 0 then ⌊q⌋ else ⌊q⌋ + 1)
  else round q

/-- `np.round(sc_mat).astype(int)` (line 204). -/
def roundMat (sc : Mat3) : Fin 3 → Fin 3 → ℤ := fun i j => roundEven (sc i j)

/-- `roundMat` recast to rationals, for re-feeding a rounded matrix into
the transform. -/
def roundMatQ (sc : Mat3) : Mat3 := fun i j => (roundMat sc i j : ℚ)

/-- The non-integer test of line 198:
`not np.allclose(np.round(sc_mat), sc_mat)`; a `True` here is the
non-fatal warning of the spec (§4.4). -/
def scWarn (sc : Mat3) : Bool := decide (¬ allcloseM (roundMatQ sc) sc)

/-- A rational is integral when its reduced denominator is 1. -/
def isIntQ (q : ℚ) : Prop := q.den = 1

instance (q : ℚ) : Decidable (isIntQ q) := by unfold isIntQ; infer_instance

/-- Largest `n ≤ bound` with `n³ ≤ q` (0 when there is none). -/
def cbrtAux (q : ℚ) : ℕ → ℕ
  | 0 => 0
  | n + 1 => if ((n + 1 : ℕ) : ℚ) ^ 3 ≤ q then n + 1 else cbrtAux q n

/-- `⌊q ^ (1/3)⌋` for nonnegative rational `q`: the greatest natural
number whose cube is at most `q`. -/
def ratCbrtFloor (q : ℚ) : ℕ := cbrtAux q ⌈q⌉.toNat

/-- Embedding of the scalar `grid_out` derivation (lines 211–216):
`ngrid = grid_out / volume`, `mult = (prod(lengths) / ngrid) ** (1/3)`,
and per axis `int(math.floor(max(l_i / mult, 1)))`.  In exact real
arithmetic `l_i / mult` is the cube root of
`l_i³ · grid_out / (prod(lengths) · volume)`, and
`floor(max(x, 1)) = max(floor(x), 1)`; the definition computes that
over ℚ.  The theorem `derive_grid_out_spec` below re-derives the
original `mult`-based formulation from this definition. -/
def derive_grid_out (lengths : Fin 3 → ℚ) (volume : ℚ) (g : ℕ) :
    Fin 3 → ℕ := fun i =>
  max (ratCbrtFloor ((lengths i) ^ 3 * g /
    ((lengths 0 * lengths 1 * lengths 2) * volume))) 1

/-- `structure.translate_sites(range(len(structure)), -origin)`
(lines 206–208): every fractional site coordinate is shifted by
`-origin`; lattice, volume and lengths are unchanged. -/
def translate_sites (s : PyStructure) (origin : Fin 3 → ℚ) : PyStructure :=
  { s with sites := s.sites.map (fun site => fun i => site i - origin i) }

/-- The resolved per-axis output dimensions of `get_transformed`
(lines 211–218): scalar counts go through `derive_grid_out`, explicit
lists are taken as given. -/
def resolveDims (s : PyStructure) (grid_out : ℕ ⊕ (Fin 3 → ℤ)) :
    Fin 3 → ℤ :=
  match grid_out with
  | Sum.inl g => fun i => (derive_grid_out s.abc s.volume g i : ℤ)
  | Sum.inr d => d

/-- Modelled from the spec: `ChargeDensity.get_transformed_data`, called
at line 220 but not defined under `src/` (only this caller is).  Per
§4.4 it resamples the named grids by Fourier interpolation — whose
kernel the spec leaves open (§9), so it appears here as the opaque
function argument `resampleFn` — and per §4.4's failure modes together
with §4.1 it fails with `ShapeError` when the output grid has a
non-positive dimension on some axis. -/
def get_transformed_data
    (resampleFn : ChargeDensityObj → (Fin 3 → Fin 3 → ℤ) → (Fin 3 → ℚ) →
      (Fin 3 → ℤ) → ℕ → List ℚ)
    (cd : ChargeDensityObj) (scInt : Fin 3 → Fin 3 → ℤ)
    (origin : Fin 3 → ℚ) (dims : Fin 3 → ℤ) (up_sample : ℕ) :
    Except PyErr (List ℚ) :=
  if ∀ i, 0 < dims i then .ok (resampleFn cd scInt origin dims up_sample)
  else .error .shapeError

/-- Modelled from the spec: `ChargeDensity.from_rho`, called at line 223
but not defined under `src/`.  Per §4.4 step 3, the aggregate produced
by the transform path "is constructed directly from physical data with
normalization explicitly set to `none` internally", wrapping the
resampled array as the single `"total"` grid on the new structure's
lattice, and only then recording the caller's declared scheme for
export-time use. -/
def from_rho (rho : List ℚ) (s : PyStructure)
    (normalization : Option String) : Except PyErr ChargeDensityObj :=
  match chargeDensity_init [("total", { lattice := s.lattice, grid_data := rho })]
      s (some "none") with
  | .error e => .error e
  | .ok o => .ok { o with normalization := normalization }

/-- Everything observable about one `get_transformed` call: whether the
non-integer warning fired, the integer matrix actually used for the
structure replication and the resampling, and the returned aggregate
(or exception). -/
structure TransformOut where
  warned : Bool
  scUsed : Fin 3 → Fin 3 → ℤ
  result : Except PyErr ChargeDensityObj

/-- Embedding of `ChargeDensity.get_transformed` (lines 175–223).  The
two external collaborators that the source delegates to — structure
replication `new_structure * sc_mat` (pymatgen) and the Fourier
resampling kernel — are passed in as opaque functions `structMul` and
`resampleFn`; everything else mirrors the source line by line: the
`np.allclose(np.round(sc_mat), sc_mat)` warning check, the rounding of
`sc_mat` to integers, the `-origin` site translation, the output-grid
resolution, the resampling call and the final `from_rho`. -/
def get_transformed
    (structMul : PyStructure → (Fin 3 → Fin 3 → ℤ) → PyStructure)
    (resampleFn : ChargeDensityObj → (Fin 3 → Fin 3 → ℤ) → (Fin 3 → ℚ) →
      (Fin 3 → ℤ) → ℕ → List ℚ)
    (cd : ChargeDensityObj) (sc_mat : Mat3) (origin : Fin 3 → ℚ)
    (grid_out : ℕ ⊕ (Fin 3 → ℤ)) (up_sample : ℕ) : TransformOut :=
  let scInt := roundMat sc_mat
  let newStruct := structMul (translate_sites cd.struct origin) scInt
  let dims := resolveDims newStruct grid_out
  { warned := scWarn sc_mat
    scUsed := scInt
    result :=
      match get_transformed_data resampleFn cd scInt origin dims up_sample with
      | .error e => .error e
      | .ok rho => from_rho rho newStruct cd.normalization }

/-! ### `multiply_aug` (lines 327–366): augmentation renumbering -/

/-- The whitespace characters recognised by Python's `str.split()` that
can occur in CHGCAR augmentation lines (space, tab, newline, carriage
return). -/
def isWs (c : Char) : Bool :=
  c = ' ' || c = '\t' || c = '\n' || c = '\r'

/-- `needle in haystack` on character lists: some suffix of the haystack
starts with the needle. -/
def containsSub (needle : List Char) : List Char → Bool
  | [] => needle.isEmpty
  | c :: cs => needle.isPrefixOf (c :: cs) || containsSub needle cs

/-- The membership test `"augmentation" in ll` of line 348. -/
def isMarker (s : String) : Bool := containsSub "augmentation".data s.data

/-- The characters of the last whitespace-delimited token of a line
(empty when the line has no token): reading from the right, drop the
trailing whitespace, then take the maximal non-whitespace run. -/
def lastTokenChars (cs : List Char) : List Char :=
  (((cs.reverse.dropWhile isWs).takeWhile (fun c => !isWs c)).reverse)

/-- `line.split()[-1]` (line 354): the last whitespace-delimited token,
`IndexError` when the line has no token. -/
def pyLastToken (s : String) : Except PyErr String :=
  if lastTokenChars s.data = [] then .error .indexError
  else .ok (String.mk (lastTokenChars s.data))

/-- Total variant of `pyLastToken` (the empty string when the line has
no token), used to state expected outputs. -/
def pyLastTokenD (s : String) : String := String.mk (lastTokenChars s.data)

/-- Python's format specifier `{x:>4}`: right-align in a field of width
4, no padding when the text is already 4 characters or longer. -/
def padLeft4 (s : String) : String :=
  if s.length < 4 then String.mk (List.replicate (4 - s.length) ' ') ++ s
  else s

/-- The rewritten header of line 354:
`f"augmentation occupancies{cnt:>4}{last:>4}\n"`. -/
def mkHeader (cnt : ℕ) (tok : String) : String :=
  "augmentation occupancies" ++ padLeft4 (toString cnt) ++ padLeft4 tok ++ "\n"

/-- One flush of `cur_block` (the `for _ in range(factor)` loops at
lines 350–355 and 360–365): `factor` times, increment the counter,
re-assign `cur_block[0]` to the rewritten header — computing the
trailing token from the *current* `cur_block[0]`, which after the first
iteration is itself a rewritten header — and emit the whole block.
Returns the emitted lines, the final (mutated) `cur_block`, and the
final counter; `IndexError` when `cur_block` is empty or its first line
has no token. -/
def flushN : ℕ → List String → ℕ →
    Except PyErr (List String × List String × ℕ)
  | 0, cur, cnt => .ok ([], cur, cnt)
  | f + 1, cur, cnt =>
    match cur with
    | [] => .error .indexError
    | h :: t =>
      match pyLastToken h with
      | .error e => .error e
      | .ok tok =>
        let h2 := mkHeader (cnt + 1) tok
        match flushN f (h2 :: t) (cnt + 1) with
        | .error e => .error e
        | .ok (rest, cur2, cnt2) => .ok ((h2 :: t) ++ rest, cur2, cnt2)

/-- The main loop of `multiply_aug` (lines 347–358) over the input
lines, carrying `res`, `cur_block` and `cnt`: a marker line first
flushes the pending block (if any) and then starts a new block; any
other line is appended to the pending block. -/
def maLoop (factor : ℕ) : List String → List String → List String → ℕ →
    Except PyErr (List String × List String × ℕ)
  | [], res, cur, cnt => .ok (res, cur, cnt)
  | ll :: rest, res, cur, cnt =>
    if isMarker ll then
      match cur with
      | [] => maLoop factor rest res [ll] cnt
      | _ :: _ =>
        match flushN factor cur cnt with
        | .error e => .error e
        | .ok (emitted, _, cnt2) => maLoop factor rest (res ++ emitted) [ll] cnt2
    else maLoop factor rest res (cur ++ [ll]) cnt

/-- Embedding of `multiply_aug` (lines 327–366).  After the loop, the
`for … else` clause at lines 359–365 *unconditionally* flushes the
pending `cur_block` one final time — with no emptiness guard, unlike the
in-loop flush. -/
def multiply_aug (data_aug : List String) (factor : ℕ) :
    Except PyErr (List String) :=
  match maLoop factor data_aug [] [] 0 with
  | .error e => .error e
  | .ok (res, cur, cnt) =>
    match flushN factor cur cnt with
    | .error e => .error e
    | .ok (emitted, _, _) => .ok (res ++ emitted)

/-- The lines a single block (trailing token `tok`, data lines `t`)
contributes when flushed `f` times starting from counter `cnt`:
copies with headers numbered `cnt+1, …, cnt+f`, data lines verbatim. -/
def flushEmit (f cnt : ℕ) (tok : String) (t : List String) : List String :=
  match f with
  | 0 => []
  | f' + 1 => (mkHeader (cnt + 1) tok :: t) ++ flushEmit f' (cnt + 1) tok t

/-- The output the renumbering spec (§4.6) prescribes for a nonempty
sequence of blocks, starting from counter `cnt`: blocks in input order,
each emitted as `factor` contiguous copies, the counter running
globally across the whole output, each copy's header rewritten to carry
the counter value while keeping the original header's trailing token,
and data lines verbatim. -/
def expectedAug (factor : ℕ) : (String × List String) →
    List (String × List String) → ℕ → List String
  | (h, ds), [], cnt => flushEmit factor cnt (pyLastTokenD h) ds
  | (h, ds), b :: bs, cnt =>
    flushEmit factor cnt (pyLastTokenD h) ds ++ expectedAug factor b bs (cnt + factor)

/-- `expectedAug` over a whole block list (empty input → empty output). -/
def expectedOut (factor : ℕ) : List (String × List String) → List String
  | [] => []
  | b :: bs => expectedAug factor b bs 0

/-- The concrete line sequence a list of blocks denotes: each block is
its marker line followed by its data lines. -/
def flattenBlocks (bs : List (String × List String)) : List String :=
  (bs.map (fun b => b.1 :: b.2)).flatten

/-- A well-formed augmentation block: the header contains the marker
token (hence has a last token), the header's trailing field is at most
3 characters wide (so the fixed-width `{:>4}` columns keep it separated
from the counter), and no data line contains the marker token. -/
def ValidBlock (b : String × List String) : Prop :=
  isMarker b.1 = true ∧ lastTokenChars b.1.data ≠ [] ∧
    (pyLastTokenD b.1).length ≤ 3 ∧ ∀ d ∈ b.2, isMarker d = false

instance (b : String × List String) : Decidable (ValidBlock b) := by
  unfold ValidBlock
  infer_instance

/-! ### Concrete fixtures for witnesses and counterexamples -/

/-- A structure on the identity lattice with cell volume 2. -/
def s2 : PyStructure :=
  { lattice := latI, volume := 2, abc := fun _ => 1, sites := [] }

/-- A lattice uniformly scaled by 1.01, beyond `np.allclose` tolerance
of the identity. -/
def latBad : Mat3 := fun i j => if i = j then 101 / 100 else 0

instance {ε α : Type} [DecidableEq ε] [DecidableEq α] :
    DecidableEq (Except ε α) := fun x y =>
  match x, y with
  | .ok a, .ok b =>
    if h : a = b then .isTrue (by rw [h])
    else .isFalse (fun hh => h (by cases hh; rfl))
  | .error a, .error b =>
    if h : a = b then .isTrue (by rw [h])
    else .isFalse (fun hh => h (by cases hh; rfl))
  | .ok _, .error _ => .isFalse (fun hh => Except.noConfusion hh)
  | .error _, .ok _ => .isFalse (fun hh => Except.noConfusion hh)

/-! ### Basic lemmas about the scheme dispatch and construction -/

lemma normalize_vasp (vol : ℚ) (D : List ℚ) :
    normalize_data (some "vasp") vol D = .ok (D.map (fun x => x / vol)) := rfl

lemma normalize_none (vol : ℚ) (D : List ℚ) :
    normalize_data (some "none") vol D = .ok D := rfl

lemma scale_vasp (vol : ℚ) (D : List ℚ) :
    scale_data (some "vasp") vol D = .ok (D.map (fun x => x * vol)) := rfl

lemma normAll_vasp (vol : ℚ) : ∀ ps : List (String × PGridM),
    normAll (some "vasp") vol ps =
      .ok (ps.map (fun p => (p.1, PgridsVal.arr (p.2.grid_data.map (fun x => x / vol)))))
  | [] => rfl
  | p :: ps => by
    simp only [normAll, normalize_vasp, normAll_vasp vol ps, List.map_cons]

lemma normAll_none (vol : ℚ) : ∀ ps : List (String × PGridM),
    normAll (some "none") vol ps =
      .ok (ps.map (fun p => (p.1, PgridsVal.arr p.2.grid_data)))
  | [] => rfl
  | p :: ps => by
    simp only [normAll, normalize_none, normAll_none vol ps, List.map_cons]

lemma exportAll_arr (vol : ℚ) : ∀ l : List (String × List ℚ),
    exportAll vol (l.map (fun p => (p.1, PgridsVal.arr p.2))) =
      .ok (l.map (fun p => (p.1, p.2.map (fun x => x * vol))))
  | [] => rfl
  | p :: ps => by
    simp only [List.map_cons, exportAll, scale_vasp, exportAll_arr vol ps]

/-- Claim C1: the forward normalization dispatches on the scheme's first
character — absent scheme or leading n/N is the identity, leading v/V
divides every sample by the cell volume, any other leading character
fails with the unsupported-scheme error. -/
theorem normalize_data_scheme_dispatch (norm : Option String) (vol : ℚ)
    (D : List ℚ) :
    (normalize_data none vol D = .ok D) ∧
    (∀ c rest, norm = some (String.mk (c :: rest)) → (c = 'n' ∨ c = 'N') →
      normalize_data norm vol D = .ok D) ∧
    (∀ c rest, norm = some (String.mk (c :: rest)) → (c = 'v' ∨ c = 'V') →
      normalize_data norm vol D = .ok (D.map (fun x => x / vol))) ∧
    (∀ c rest, norm = some (String.mk (c :: rest)) →
      c.toLower ≠ 'n' → c.toLower ≠ 'v' →
      normalize_data norm vol D = .error .unsupportedScheme) := by
  refine ⟨rfl, ?_, ?_, ?_⟩
  · rintro c rest rfl (rfl | rfl) <;> rfl
  · rintro c rest rfl (rfl | rfl) <;> rfl
  · rintro c rest rfl h1 h2
    simp only [normalize_data]
    rw [if_neg h1, if_neg h2]

/-- Witness for C1 at concrete inputs: the scheme "vasp" divides by the
volume, "none" is the identity, and the scheme "x" is rejected. -/
theorem normalize_data_scheme_dispatch_witness :
    normalize_data (some (String.mk ('v' :: "asp".data))) 2 [3] =
      .ok ([3].map (fun x => x / 2)) ∧
    normalize_data (some (String.mk ('n' :: "one".data))) 2 [3] = .ok [3] ∧
    normalize_data (some (String.mk ('x' :: []))) 2 [3] =
      .error .unsupportedScheme :=
  ⟨(normalize_data_scheme_dispatch _ 2 [3]).2.2.1 'v' "asp".data rfl (Or.inl rfl),
   (normalize_data_scheme_dispatch _ 2 [3]).2.1 'n' "one".data rfl (Or.inl rfl),
   (normalize_data_scheme_dispatch _ 2 [3]).2.2.2 'x' [] rfl
     (by decide) (by decide)⟩

/-- Claim C2: with the scheme at its dataclass default `"vasp"`,
construction fails with the lattice-invariant error exactly when some
grid's lattice is not `np.allclose` to the structure's lattice, and
succeeds (with every entry normalized) when all lattices agree. -/
theorem init_lattice_invariant (pgrids : List (String × PGridM))
    (s : PyStructure) :
    (chargeDensity_init pgrids s (some "vasp") = .error .invariantError ↔
      ¬ ∀ p ∈ pgrids, allcloseM s.lattice p.2.lattice) ∧
    ((∀ p ∈ pgrids, allcloseM s.lattice p.2.lattice) →
      chargeDensity_init pgrids s (some "vasp") =
        .ok { pgrids := pgrids.map
                (fun p => (p.1, PgridsVal.arr (p.2.grid_data.map (fun x => x / s.volume)))),
              struct := s, normalization := some "vasp" }) := by
  by_cases h : ∀ p ∈ pgrids, allcloseM s.lattice p.2.lattice
  · have hinit : chargeDensity_init pgrids s (some "vasp") =
        .ok { pgrids := pgrids.map
                (fun p => (p.1, PgridsVal.arr (p.2.grid_data.map (fun x => x / s.volume)))),
              struct := s, normalization := some "vasp" } := by
      simp only [chargeDensity_init, if_pos h, normAll_vasp s.volume pgrids]
    refine ⟨?_, fun _ => hinit⟩
    rw [hinit]
    exact ⟨fun hh => Except.noConfusion hh, fun hh => absurd h hh⟩
  · have hinit : chargeDensity_init pgrids s (some "vasp") =
        .error .invariantError := by
      simp only [chargeDensity_init, if_neg h]
    refine ⟨?_, fun hh => absurd hh h⟩
    rw [hinit]
    exact ⟨fun _ => h, fun _ => rfl⟩

/-- Witness for C2: a 1.01-scaled grid lattice is rejected with the
invariant error; a matching lattice constructs successfully. -/
theorem init_lattice_invariant_witness :
    chargeDensity_init [("total", { lattice := latBad, grid_data := [1] })] s2
        (some "vasp") = .error .invariantError ∧
    chargeDensity_init [("total", { lattice := latI, grid_data := [1] })] s2
        (some "vasp") =
      .ok { pgrids := [("total", PgridsVal.arr ([1].map (fun x => x / s2.volume)))],
            struct := s2, normalization := some "vasp" } := by
  constructor
  · exact (init_lattice_invariant _ _).1.mpr (by with_unfolding_all decide)
  · exact (init_lattice_invariant _ _).2 (by with_unfolding_all decide)

/-- Claim C10 (code bug): on the empty input with factor 1, the
unguarded final flush indexes into the empty `cur_block` and raises
`IndexError` — the renumbering is not total over zero-block inputs. -/
theorem multiply_aug_empty_raises : multiply_aug [] 1 = .error .indexError := rfl

lemma exportAll_map_arr (vol : ℚ) (f : List ℚ → List ℚ) :
    ∀ pgrids : List (String × PGridM),
    exportAll vol (pgrids.map (fun p => (p.1, PgridsVal.arr (f p.2.grid_data)))) =
      .ok (pgrids.map (fun p => (p.1, (f p.2.grid_data).map (fun x => x * vol))))
  | [] => rfl
  | p :: ps => by
    simp only [List.map_cons, exportAll, scale_vasp, exportAll_map_arr vol f ps]

/-- Claim C3 (amended): with the volume-scaled scheme, constructing and
then exporting returns exactly the original stored arrays (so
re-importing them reconstructs the same aggregate); with scheme `none`,
exporting multiplies every sample by the cell volume — `to_Chgcar`
hardcodes the inverse `"vasp"` scaling — so it is the identity only
when the volume is 1. -/
theorem export_roundtrip (s : PyStructure) (pgrids : List (String × PGridM))
    (hv : s.volume ≠ 0) (hl : ∀ p ∈ pgrids, allcloseM s.lattice p.2.lattice) :
    (∃ o, chargeDensity_init pgrids s (some "vasp") = .ok o ∧
      to_Chgcar o = .ok (pgrids.map (fun p => (p.1, p.2.grid_data)))) ∧
    (∃ o, chargeDensity_init pgrids s (some "none") = .ok o ∧
      to_Chgcar o = .ok (pgrids.map
        (fun p => (p.1, p.2.grid_data.map (fun x => x * s.volume))))) := by
  constructor
  · have hinit : chargeDensity_init pgrids s (some "vasp") =
        .ok { pgrids := pgrids.map (fun p =>
                (p.1, PgridsVal.arr (p.2.grid_data.map (fun x => x / s.volume)))),
              struct := s, normalization := some "vasp" } := by
      simp only [chargeDensity_init, if_pos hl, normAll_vasp]
    refine ⟨_, hinit, ?_⟩
    show exportAll s.volume _ = _
    rw [exportAll_map_arr s.volume (fun d => d.map (fun x => x / s.volume)) pgrids]
    congr 1
    refine List.map_congr_left (fun p _ => ?_)
    rw [List.map_map]
    have hcomp : ((fun x => x * s.volume) ∘ (fun x => x / s.volume)) = id :=
      funext (fun x => div_mul_cancel₀ x hv)
    rw [hcomp, List.map_id]
  · have hinit : chargeDensity_init pgrids s (some "none") =
        .ok { pgrids := pgrids.map (fun p => (p.1, PgridsVal.arr p.2.grid_data)),
              struct := s, normalization := some "none" } := by
      simp only [chargeDensity_init, if_pos hl, normAll_none]
    refine ⟨_, hinit, ?_⟩
    show exportAll s.volume _ = _
    exact exportAll_map_arr s.volume (fun d => d) pgrids

/-- Witness for C3's amended theorem at a concrete aggregate on a
volume-2 cell: the "vasp" round trip returns the stored `[3]` exactly;
the "none" export returns `[6]`. -/
theorem export_roundtrip_witness :
    (∃ o, chargeDensity_init [("total", { lattice := latI, grid_data := [3] })]
        s2 (some "vasp") = .ok o ∧ to_Chgcar o = .ok [("total", [3])]) ∧
    (∃ o, chargeDensity_init [("total", { lattice := latI, grid_data := [3] })]
        s2 (some "none") = .ok o ∧ to_Chgcar o = .ok [("total", [6])]) := by
  obtain ⟨⟨o1, h1, h2⟩, ⟨o2, h3, h4⟩⟩ :=
    export_roundtrip s2 [("total", { lattice := latI, grid_data := [3] })]
      (by norm_num [s2]) (by with_unfolding_all decide)
  refine ⟨⟨o1, h1, ?_⟩, ⟨o2, h3, ?_⟩⟩
  · rw [h2]
    rfl
  · rw [h4]
    norm_num [s2]

/-- Counterexample for C3 as stated: on a cell of volume 2 with scheme
`none`, the stored data `[3]` exports to `[6]`, not to itself — the
export step is not the identity for scheme `none`. -/
theorem to_Chgcar_none_not_identity :
    (chargeDensity_init [("total", { lattice := latI, grid_data := [3] })] s2
        (some "none")).map to_Chgcar = .ok (.ok [("total", [6])]) ∧
      ((6 : ℚ)) ≠ 3 := by
  constructor
  · with_unfolding_all decide
  · norm_num

/-- Claim C8 (code bug): after a successful construction the `pgrids`
dict — the very dict object the caller passed in, re-assigned entry by
entry — maps `"total"` to the bare normalized array, not to a
`PeriodicGrid` value. -/
theorem init_replaces_pgrid_values :
    (chargeDensity_init [("total", { lattice := latI, grid_data := [3] })] s2
        (some "vasp")).map
      (fun o => o.pgrids.map (fun p => (p.1, isPG p.2, dataOf p.2))) =
    .ok [("total", false, some [3 / 2])] := by
  with_unfolding_all decide

/-! ### Rounding, warnings and the transform pipeline (C4, C6, C9) -/

lemma qabs_nonneg (q : ℚ) : 0 ≤ qabs q := by
  unfold qabs
  split
  · linarith
  · linarith

lemma close_self (a : ℚ) : close a a := by
  unfold close
  rw [sub_self]
  have h1 : qabs (0 : ℚ) = 0 := by norm_num [qabs]
  have h2 : 0 ≤ rtol * qabs a := mul_nonneg (by norm_num [rtol]) (qabs_nonneg a)
  have h3 : (0 : ℚ) < atol := by norm_num [atol]
  linarith

lemma allcloseM_self (A : Mat3) : allcloseM A A := fun _ _ => close_self _

lemma roundEven_intCast (z : ℤ) : roundEven ((z : ℚ)) = z := by
  unfold roundEven
  rw [Int.floor_intCast, sub_self]
  norm_num

lemma roundMatQ_idem (sc : Mat3) : roundMatQ (roundMatQ sc) = roundMatQ sc := by
  funext i j
  simp only [roundMatQ, roundMat, roundEven_intCast]

lemma roundMat_of_rounded (sc : Mat3) : roundMat (roundMatQ sc) = roundMat sc := by
  funext i j
  simp only [roundMatQ, roundMat, roundEven_intCast]

/-- A supercell matrix with one non-integer entry `1 + 1e-6`, inside the
`np.allclose` tolerance of its rounded value. -/
def scNonInt : Mat3 := fun i j =>
  if i = j then (if i = (0 : Fin 3) then 1 + 1 / 1000000 else 1) else 0

/-- A trivial stand-in for the pymatgen structure-replication
collaborator, used only to instantiate transform theorems concretely. -/
def smDummy : PyStructure → (Fin 3 → Fin 3 → ℤ) → PyStructure := fun s _ => s

/-- A trivial stand-in for the Fourier resampling kernel, used only to
instantiate transform theorems concretely. -/
def rsDummy : ChargeDensityObj → (Fin 3 → Fin 3 → ℤ) → (Fin 3 → ℚ) →
    (Fin 3 → ℤ) → ℕ → List ℚ := fun _ _ _ _ _ => []

/-- A trivial aggregate for instantiating transform theorems. -/
def cdDummy : ChargeDensityObj :=
  { pgrids := [],
    struct := { lattice := latI, volume := 1, abc := fun _ => 1, sites := [] },
    normalization := some "vasp" }

/-- Counterexample for C4 as stated: the matrix `scNonInt` has a
non-integer entry, yet `get_transformed` emits no warning, because the
`np.allclose(np.round(sc_mat), sc_mat)` check has a tolerance —
entries within `atol + rtol·|entry|` of an integer pass silently. -/
theorem get_transformed_warning_tolerance_gap :
    ¬ isIntQ (scNonInt 0 0) ∧
    (get_transformed smDummy rsDummy cdDummy scNonInt (fun _ => 0)
      (Sum.inr (fun _ => 1)) 1).warned = false := by
  constructor
  · with_unfolding_all decide
  · with_unfolding_all decide

/-- Claim C4 (amended): the warning fires exactly when some entry is
beyond the `np.allclose` tolerance of its rounded value (not for every
non-integer entry); every entry is rounded to the nearest integer (half
to even), the rounded matrix is the one recorded as used for the
structure replication and the resampling, and the result is identical
to — and in particular raises exactly when — the result for the
pre-rounded integer matrix, which itself warns never. -/
theorem get_transformed_rounding
    (structMul : PyStructure → (Fin 3 → Fin 3 → ℤ) → PyStructure)
    (resampleFn : ChargeDensityObj → (Fin 3 → Fin 3 → ℤ) → (Fin 3 → ℚ) →
      (Fin 3 → ℤ) → ℕ → List ℚ)
    (cd : ChargeDensityObj) (sc_mat : Mat3) (origin : Fin 3 → ℚ)
    (go : ℕ ⊕ (Fin 3 → ℤ)) (us : ℕ) :
    ((get_transformed structMul resampleFn cd sc_mat origin go us).warned = true ↔
      ¬ allcloseM (roundMatQ sc_mat) sc_mat) ∧
    (get_transformed structMul resampleFn cd sc_mat origin go us).scUsed =
      roundMat sc_mat ∧
    (get_transformed structMul resampleFn cd (roundMatQ sc_mat) origin go us).result =
      (get_transformed structMul resampleFn cd sc_mat origin go us).result ∧
    (get_transformed structMul resampleFn cd (roundMatQ sc_mat) origin go us).warned =
      false := by
  refine ⟨?_, rfl, ?_, ?_⟩
  · simp only [get_transformed, scWarn, decide_eq_true_eq]
  · simp only [get_transformed, roundMat_of_rounded]
  · simp only [get_transformed, scWarn, decide_eq_false_iff_not, not_not,
      roundMatQ_idem]
    exact allcloseM_self _

lemma from_rho_eq (rho : List ℚ) (s : PyStructure) (norm : Option String) :
    from_rho rho s norm =
      .ok { pgrids := [("total", PgridsVal.arr rho)], struct := s,
            normalization := norm } := by
  unfold from_rho
  have hl : ∀ p ∈ [("total",
      ({ lattice := s.lattice, grid_data := rho } : PGridM))],
      allcloseM s.lattice p.2.lattice := by
    intro p hp
    rw [List.mem_singleton.mp hp]
    exact allcloseM_self s.lattice
  simp only [chargeDensity_init, if_pos hl, normAll_none, List.map_cons,
    List.map_nil]

/-- Claim C6: the transform's result is exactly the resampled data
wrapped unchanged as the single `"total"` grid — the construction goes
through `from_rho`, whose construction-time normalization is `none`, so
no forward scaling is re-applied — while the aggregate still carries
the source's declared scheme for export-time use. -/
theorem get_transformed_no_double_scaling
    (structMul : PyStructure → (Fin 3 → Fin 3 → ℤ) → PyStructure)
    (resampleFn : ChargeDensityObj → (Fin 3 → Fin 3 → ℤ) → (Fin 3 → ℚ) →
      (Fin 3 → ℤ) → ℕ → List ℚ)
    (cd : ChargeDensityObj) (sc_mat : Mat3) (origin : Fin 3 → ℚ)
    (go : ℕ ⊕ (Fin 3 → ℤ)) (us : ℕ) :
    (get_transformed structMul resampleFn cd sc_mat origin go us).result =
      (get_transformed_data resampleFn cd (roundMat sc_mat) origin
        (resolveDims (structMul (translate_sites cd.struct origin)
          (roundMat sc_mat)) go) us).map
        (fun rho =>
          { pgrids := [("total", PgridsVal.arr rho)],
            struct := structMul (translate_sites cd.struct origin)
              (roundMat sc_mat),
            normalization := cd.normalization }) := by
  simp only [get_transformed]
  cases h : get_transformed_data resampleFn cd (roundMat sc_mat) origin
      (resolveDims (structMul (translate_sites cd.struct origin)
        (roundMat sc_mat)) go) us with
  | error e => rfl
  | ok rho => exact (from_rho_eq rho _ cd.normalization).trans rfl

lemma resolveDims_scalar_pos (s : PyStructure) (g : ℕ) (i : Fin 3) :
    0 < resolveDims s (Sum.inl g) i := by
  simp only [resolveDims]
  have h1 : 1 ≤ max (ratCbrtFloor ((s.abc i) ^ 3 * g /
      ((s.abc 0 * s.abc 1 * s.abc 2) * s.volume))) 1 := le_max_right _ _
  exact_mod_cast Nat.lt_of_lt_of_le Nat.zero_lt_one
    (by exact_mod_cast h1)

/-- Claim C9: the transform fails with `ShapeError` exactly when an
explicitly given `grid_out` has a non-positive axis; a scalar
`grid_out` always derives per-axis counts of at least 1 (the
`max(·, 1)` clamp), so the scalar path never produces the error. -/
theorem get_transformed_shape_error
    (structMul : PyStructure → (Fin 3 → Fin 3 → ℤ) → PyStructure)
    (resampleFn : ChargeDensityObj → (Fin 3 → Fin 3 → ℤ) → (Fin 3 → ℚ) →
      (Fin 3 → ℤ) → ℕ → List ℚ)
    (cd : ChargeDensityObj) (sc_mat : Mat3) (origin : Fin 3 → ℚ)
    (go : ℕ ⊕ (Fin 3 → ℤ)) (us : ℕ) :
    (get_transformed structMul resampleFn cd sc_mat origin go us).result =
        .error .shapeError ↔
      ∃ d, go = Sum.inr d ∧ ∃ i, d i ≤ 0 := by
  cases go with
  | inl g =>
    have hpos : ∀ i, 0 < resolveDims (structMul (translate_sites cd.struct
        origin) (roundMat sc_mat)) (Sum.inl g) i :=
      fun i => resolveDims_scalar_pos _ g i
    simp only [get_transformed, get_transformed_data, if_pos hpos,
      from_rho_eq]
    exact ⟨fun hh => Except.noConfusion hh,
      fun ⟨d, hd, _⟩ => Sum.noConfusion hd⟩
  | inr d =>
    by_cases hd : ∀ i, 0 < d i
    · have hres : resolveDims (structMul (translate_sites cd.struct origin)
          (roundMat sc_mat)) (Sum.inr d) = d := rfl
      simp only [get_transformed, get_transformed_data, hres, if_pos hd,
        from_rho_eq]
      constructor
      · exact fun hh => Except.noConfusion hh
      · rintro ⟨d2, hd2, i, hi⟩
        cases hd2
        exact absurd (hd i) (not_lt.mpr hi)
    · have hres : resolveDims (structMul (translate_sites cd.struct origin)
          (roundMat sc_mat)) (Sum.inr d) = d := rfl
      simp only [get_transformed, get_transformed_data, hres, if_neg hd]
      push_neg at hd
      obtain ⟨i, hi⟩ := hd
      exact ⟨fun _ => ⟨d, rfl, i, hi⟩, fun _ => trivial⟩

/-! ### The scalar grid_out derivation (C5) -/

lemma cbrtAux_cube_le (q : ℚ) (hq : 0 ≤ q) :
    ∀ b, ((cbrtAux q b : ℚ)) ^ 3 ≤ q
  | 0 => by simpa using hq
  | b + 1 => by
    unfold cbrtAux
    split
    · assumption
    · exact cbrtAux_cube_le q hq b

lemma le_cbrtAux (q : ℚ) :
    ∀ (b n : ℕ), n ≤ b → ((n : ℚ)) ^ 3 ≤ q → n ≤ cbrtAux q b
  | 0, n, hnb, _ => by simpa [cbrtAux] using hnb
  | b + 1, n, hnb, hcube => by
    unfold cbrtAux
    split
    · exact hnb
    · rename_i h
      have hne : n ≠ b + 1 := by
        rintro rfl
        exact h (by exact_mod_cast hcube)
      exact le_cbrtAux q b n (by omega) hcube

lemma ratCbrtFloor_cube_le (q : ℚ) (hq : 0 ≤ q) :
    ((ratCbrtFloor q : ℚ)) ^ 3 ≤ q := cbrtAux_cube_le q hq _

lemma ratCbrtFloor_lt (q : ℚ) (_hq : 0 ≤ q) :
    q < ((ratCbrtFloor q : ℚ) + 1) ^ 3 := by
  by_contra hle
  push_neg at hle
  have hcast : (((ratCbrtFloor q + 1 : ℕ) : ℚ)) ^ 3 ≤ q := by push_cast; exact hle
  have h1 : (((ratCbrtFloor q + 1 : ℕ) : ℚ)) ≤ (((ratCbrtFloor q + 1 : ℕ) : ℚ)) ^ 3 :=
    le_self_pow₀ (by exact_mod_cast Nat.succ_le_succ (Nat.zero_le _)) (by norm_num)
  have h2 : (((ratCbrtFloor q + 1 : ℕ) : ℚ)) ≤ q := h1.trans hcast
  have h3 : ((ratCbrtFloor q + 1 : ℕ) : ℤ) ≤ ⌈q⌉ := by
    have hc : (((ratCbrtFloor q + 1 : ℕ) : ℚ)) ≤ ((⌈q⌉ : ℤ) : ℚ) :=
      h2.trans (Int.le_ceil q)
    exact_mod_cast hc
  have h4 : ratCbrtFloor q + 1 ≤ ⌈q⌉.toNat := by omega
  have h5 : ratCbrtFloor q + 1 ≤ cbrtAux q ⌈q⌉.toNat :=
    le_cbrtAux q ⌈q⌉.toNat (ratCbrtFloor q + 1) h4 hcast
  have h6 : cbrtAux q ⌈q⌉.toNat = ratCbrtFloor q := rfl
  omega

/-- `ratCbrtFloor q` is the floor of any nonnegative real cube root
of `q`. -/
lemma ratCbrtFloor_eq_floor (q : ℚ) (x : ℝ) (hx : 0 ≤ x)
    (hq : x ^ 3 = (q : ℝ)) : ((ratCbrtFloor q : ℤ)) = ⌊x⌋ := by
  have hq0 : (0 : ℚ) ≤ q := by
    have h0 : (0 : ℝ) ≤ (q : ℝ) := hq ▸ pow_nonneg hx 3
    exact_mod_cast h0
  have h1 : ((ratCbrtFloor q : ℝ)) ≤ x := by
    have hc : ((ratCbrtFloor q : ℝ)) ^ 3 ≤ x ^ 3 := by
      rw [hq]
      exact_mod_cast ratCbrtFloor_cube_le q hq0
    exact (pow_le_pow_iff_left₀ (by positivity) hx (by norm_num)).mp hc
  have h2 : x < ((ratCbrtFloor q : ℝ)) + 1 := by
    have hc : x ^ 3 < (((ratCbrtFloor q : ℝ)) + 1) ^ 3 := by
      rw [hq]
      exact_mod_cast ratCbrtFloor_lt q hq0
    exact (pow_lt_pow_iff_left₀ hx (by positivity) (by norm_num)).mp hc
  symm
  rw [Int.floor_eq_iff]
  constructor
  · exact_mod_cast h1
  · exact_mod_cast h2

/-- Claim C5 (amended): the code picks the unique positive `mult` with
`prod(new_cell_lengths) / mult³ = grid_out / new_cell_volume` — the
scalar acts as a point count per unit volume (`ngrid = grid_out /
volume` at line 214), not as `prod(lengths) / mult³ ≈ grid_out` — and
sets each axis's point count to `max(floor(length_i / mult), 1)`. -/
theorem derive_grid_out_spec (lengths : Fin 3 → ℚ) (volume : ℚ) (g : ℕ)
    (hl : ∀ i, 0 < lengths i) (hv : 0 < volume) (hg : 0 < g) :
    ∃ mult : ℝ, 0 < mult ∧
      ((lengths 0 * lengths 1 * lengths 2 : ℚ) : ℝ) / mult ^ 3 =
        (g : ℝ) / ((volume : ℚ) : ℝ) ∧
      ∀ i, ((derive_grid_out lengths volume g i : ℤ)) =
        max ⌊((lengths i : ℚ) : ℝ) / mult⌋ 1 := by
  have hP0 : 0 < lengths 0 * lengths 1 * lengths 2 :=
    mul_pos (mul_pos (hl 0) (hl 1)) (hl 2)
  set r : ℝ :=
    (((lengths 0 * lengths 1 * lengths 2) * volume : ℚ) : ℝ) / ((g : ℕ) : ℝ)
    with hrdef
  have hr : 0 < r :=
    div_pos (by exact_mod_cast mul_pos hP0 hv) (by exact_mod_cast hg)
  have hm3 : (r ^ ((3 : ℝ))⁻¹) ^ (3 : ℕ) = r := by
    have h := @Real.rpow_inv_natCast_pow r 3 hr.le (by norm_num)
    push_cast at h
    exact h
  have hmpos : 0 < r ^ ((3 : ℝ))⁻¹ := Real.rpow_pos_of_pos hr _
  have h1 : ((lengths 0 * lengths 1 * lengths 2 : ℚ) : ℝ) ≠ 0 := by
    exact_mod_cast hP0.ne'
  have h2 : ((volume : ℚ) : ℝ) ≠ 0 := by exact_mod_cast hv.ne'
  have h3 : ((g : ℕ) : ℝ) ≠ 0 := by exact_mod_cast hg.ne'
  refine ⟨r ^ ((3 : ℝ))⁻¹, hmpos, ?_, ?_⟩
  · rw [hm3, hrdef]
    push_cast
    push_cast at h1 h2 h3
    field_simp
    ring
  · intro i
    have hx0 : (0 : ℝ) ≤ ((lengths i : ℚ) : ℝ) / (r ^ ((3 : ℝ))⁻¹) :=
      div_nonneg (by exact_mod_cast (hl i).le) hmpos.le
    have hx3 : (((lengths i : ℚ) : ℝ) / (r ^ ((3 : ℝ))⁻¹)) ^ 3 =
        ((lengths i ^ 3 * g /
          ((lengths 0 * lengths 1 * lengths 2) * volume) : ℚ) : ℝ) := by
      rw [div_pow, hm3, hrdef]
      push_cast
      push_cast at h1 h2 h3
      field_simp
    have hfl := ratCbrtFloor_eq_floor _ _ hx0 hx3
    simp only [derive_grid_out]
    rw [Nat.cast_max, hfl]
    norm_num

/-- Witness for C5's amended theorem at lengths (2,2,2), volume 4,
scalar grid_out 32: each axis derives 2 points. -/
theorem derive_grid_out_spec_witness :
    ∃ mult : ℝ, 0 < mult ∧
      (((2 : ℚ) * 2 * 2 : ℚ) : ℝ) / mult ^ 3 = ((32 : ℕ) : ℝ) / ((4 : ℚ) : ℝ) ∧
      ∀ i, ((derive_grid_out (fun _ => 2) 4 32 i : ℤ)) =
        max ⌊(((2 : ℚ)) : ℝ) / mult⌋ 1 :=
  derive_grid_out_spec (fun _ => 2) 4 32 (fun _ => by norm_num) (by norm_num)
    (by norm_num)

/-- Counterexample for C5 as stated: at lengths (2,2,2), volume 4 and
scalar grid_out 32 the code derives 2 points per axis, but any `mult`
with `prod(lengths) / mult³ = grid_out` (as the claim states, without
the volume divisor) would give `floor(2 / mult) = 3` per axis. -/
theorem derive_grid_out_claim_refuted :
    ¬ ∃ mult : ℝ, 0 < mult ∧
      (((2 : ℚ) * 2 * 2 : ℚ) : ℝ) / mult ^ 3 = ((32 : ℕ) : ℝ) ∧
      ∀ i, ((derive_grid_out (fun _ => 2) 4 32 i : ℤ)) =
        max ⌊(((2 : ℚ)) : ℝ) / mult⌋ 1 := by
  rintro ⟨m, hm, he, hall⟩
  have h8 : (((2 : ℚ) * 2 * 2 : ℚ) : ℝ) = 8 := by norm_num
  have hm3 : m ^ 3 = 1 / 4 := by
    rw [h8] at he
    have hne : m ^ 3 ≠ 0 := by positivity
    field_simp at he
    linarith
  have hd : ((derive_grid_out (fun _ => 2) 4 32 0 : ℤ)) = 2 := by
    with_unfolding_all decide
  have h0 := hall 0
  rw [hd] at h0
  have h3 : (3 : ℝ) ≤ (((2 : ℚ)) : ℝ) / m := by
    rw [le_div_iff₀ hm]
    by_contra hlt
    push_neg at hlt
    have hcube : (((2 : ℚ)) : ℝ) ^ 3 < (3 * m) ^ 3 :=
      pow_lt_pow_left₀ hlt (by norm_num) (by norm_num)
    rw [mul_pow, hm3] at hcube
    norm_num at hcube
  have h4 : (((2 : ℚ)) : ℝ) / m < 4 := by
    rw [div_lt_iff₀ hm]
    by_contra hge
    push_neg at hge
    have hcube : (4 * m) ^ 3 ≤ (((2 : ℚ)) : ℝ) ^ 3 :=
      pow_le_pow_left₀ (by positivity) hge 3
    rw [mul_pow, hm3] at hcube
    norm_num at hcube
  have hfloor : ⌊(((2 : ℚ)) : ℝ) / m⌋ = 3 := by
    rw [Int.floor_eq_iff]
    constructor
    · exact_mod_cast h3
    · push_cast
      linarith
  rw [hfloor] at h0
  norm_num at h0

/-! ### Augmentation renumbering (C7): token lemmas -/

lemma lastTokenChars_ws_free (cs : List Char) :
    ∀ ch ∈ lastTokenChars cs, isWs ch = false := by
  intro ch hch
  rw [lastTokenChars, List.mem_reverse] at hch
  have h := List.mem_takeWhile_imp hch
  simpa using h

lemma takeWhile_all_append (p : Char → Bool) :
    ∀ l1 l2 : List Char, (∀ c ∈ l1, p c = true) →
      (∀ x xs, l2 = x :: xs → p x = false) →
      (l1 ++ l2).takeWhile p = l1
  | [], l2, _, h2 => by
    cases l2 with
    | nil => rfl
    | cons x xs =>
      simp only [List.nil_append]
      rw [List.takeWhile_cons_of_neg (by simp [h2 x xs rfl])]
  | c :: l1, l2, h1, h2 => by
    rw [List.cons_append,
      List.takeWhile_cons_of_pos (h1 c (List.mem_cons_self c l1)),
      takeWhile_all_append p l1 l2 (fun x hx => h1 x (List.mem_cons_of_mem _ hx)) h2]

lemma lastTokenChars_padded (P T : List Char) (k : ℕ) (hk : k ≠ 0)
    (hT : T ≠ []) (hTw : ∀ c ∈ T, isWs c = false) :
    lastTokenChars (P ++ (List.replicate k ' ' ++ T) ++ ['\n']) = T := by
  unfold lastTokenChars
  have h1 : (P ++ (List.replicate k ' ' ++ T) ++ ['\n']).reverse =
      '\n' :: (T.reverse ++ (List.replicate k ' ' ++ P.reverse)) := by
    simp [List.reverse_append, List.reverse_replicate, List.append_assoc]
  rw [h1, List.dropWhile_cons_of_pos (show isWs '\n' = true from rfl)]
  obtain ⟨t, ts, hTr⟩ : ∃ t ts, T.reverse = t :: ts := by
    cases hT2 : T.reverse with
    | nil => exact absurd (by simpa using congrArg List.reverse hT2) hT
    | cons t ts => exact ⟨t, ts, rfl⟩
  have htmem : t ∈ T := by
    rw [← List.mem_reverse, hTr]
    exact List.mem_cons_self _ _
  rw [hTr, List.cons_append,
    List.dropWhile_cons_of_neg (by simp [hTw t htmem])]
  have hall : ∀ c ∈ t :: ts, (fun c => !isWs c) c = true := by
    intro c hc
    have hcT : c ∈ T := by
      rw [← List.mem_reverse, hTr]
      exact hc
    simp [hTw c hcT]
  have hstop : ∀ x xs, List.replicate k ' ' ++ P.reverse = x :: xs →
      (fun c => !isWs c) x = false := by
    intro x xs hx
    cases k with
    | zero => exact absurd rfl hk
    | succ m =>
      rw [List.replicate_succ, List.cons_append] at hx
      cases hx
      rfl
  have htake := takeWhile_all_append (fun c => !isWs c) (t :: ts)
    (List.replicate k ' ' ++ P.reverse) hall hstop
  rw [show t :: (ts ++ (List.replicate k ' ' ++ P.reverse)) =
      (t :: ts) ++ (List.replicate k ' ' ++ P.reverse) from rfl, htake,
    ← hTr, List.reverse_reverse]

lemma padLeft4_data_of_le (tok : String) (h3 : tok.length ≤ 3) :
    (padLeft4 tok).data = List.replicate (4 - tok.length) ' ' ++ tok.data := by
  unfold padLeft4
  rw [if_pos (by omega)]
  simp [String.data_append]

/-- The rewritten header's own last token is again `tok`, provided the
trailing field fits inside its 4-character column (so the padding keeps
it whitespace-separated).  This is what keeps the trailing field stable
across the `factor` iterations, which re-split the rewritten header. -/
lemma pyLastToken_mkHeader (c : ℕ) (tok : String) (h1 : tok.data ≠ [])
    (h2 : ∀ ch ∈ tok.data, isWs ch = false) (h3 : tok.length ≤ 3) :
    pyLastToken (mkHeader c tok) = .ok tok := by
  have hdata : (mkHeader c tok).data =
      ("augmentation occupancies".data ++ (padLeft4 (toString c)).data) ++
        (List.replicate (4 - tok.length) ' ' ++ tok.data) ++ ['\n'] := by
    simp [mkHeader, String.data_append, padLeft4_data_of_le tok h3,
      List.append_assoc]
  have hk : 4 - tok.length ≠ 0 := by omega
  have hlast : lastTokenChars (mkHeader c tok).data = tok.data := by
    rw [hdata]
    exact lastTokenChars_padded _ tok.data (4 - tok.length) hk h1 h2
  unfold pyLastToken
  rw [hlast, if_neg h1]

lemma pyLastToken_eq_of_ne (s : String) (hne : lastTokenChars s.data ≠ []) :
    pyLastToken s = .ok (pyLastTokenD s) := by
  unfold pyLastToken pyLastTokenD
  rw [if_neg hne]

/-- Running one flush over a block whose first line's last token is
`tok`: the emitted lines are `flushEmit`, and the counter advances by
`f`. -/
lemma flushN_run (tok : String) (h1 : tok.data ≠ [])
    (h2 : ∀ ch ∈ tok.data, isWs ch = false) (h3 : tok.length ≤ 3) :
    ∀ (f : ℕ) (h : String) (t : List String) (cnt : ℕ),
      pyLastToken h = .ok tok →
      ∃ cur2, flushN f (h :: t) cnt = .ok (flushEmit f cnt tok t, cur2, cnt + f)
  | 0, h, t, cnt, _ => ⟨h :: t, rfl⟩
  | f + 1, h, t, cnt, hlast => by
    obtain ⟨cur2, ih⟩ := flushN_run tok h1 h2 h3 f (mkHeader (cnt + 1) tok) t
      (cnt + 1) (pyLastToken_mkHeader (cnt + 1) tok h1 h2 h3)
    refine ⟨cur2, ?_⟩
    have harith : cnt + 1 + f = cnt + (f + 1) := by omega
    rw [show flushN (f + 1) (h :: t) cnt =
        (match pyLastToken h with
         | .error e => .error e
         | .ok tok2 =>
           match flushN f (mkHeader (cnt + 1) tok2 :: t) (cnt + 1) with
           | .error e => .error e
           | .ok (rest, c2, cnt2) =>
             .ok ((mkHeader (cnt + 1) tok2 :: t) ++ rest, c2, cnt2)) from rfl,
      hlast]
    show (match flushN f (mkHeader (cnt + 1) tok :: t) (cnt + 1) with
          | Except.error e => Except.error e
          | Except.ok (rest, c2, cnt2) =>
            Except.ok ((mkHeader (cnt + 1) tok :: t) ++ rest, c2, cnt2)) =
      Except.ok (flushEmit (f + 1) cnt tok t, cur2, cnt + (f + 1))
    rw [ih, harith]
    rfl

lemma maLoop_data (factor : ℕ) :
    ∀ (ds rest res cur : List String) (cnt : ℕ),
      (∀ d ∈ ds, isMarker d = false) →
      maLoop factor (ds ++ rest) res cur cnt =
        maLoop factor rest res (cur ++ ds) cnt
  | [], rest, res, cur, cnt, _ => by simp
  | d :: ds, rest, res, cur, cnt, h => by
    have hd : isMarker d = false := h d (List.mem_cons_self _ _)
    rw [List.cons_append]
    simp only [maLoop, hd, Bool.false_eq_true, if_false]
    rw [maLoop_data factor ds rest res (cur ++ [d]) cnt
      (fun x hx => h x (List.mem_cons_of_mem _ hx)), ← List.append_cons]

lemma maLoop_step_block (factor : ℕ) (b : String × List String)
    (tail res : List String) (hpre : String) (dspre : List String) (cnt : ℕ)
    (hmb : isMarker b.1 = true) (hdb : ∀ d ∈ b.2, isMarker d = false)
    (hv : ValidBlock (hpre, dspre)) :
    maLoop factor ((b.1 :: b.2) ++ tail) res (hpre :: dspre) cnt =
      maLoop factor tail
        (res ++ flushEmit factor cnt (pyLastTokenD hpre) dspre)
        (b.1 :: b.2) (cnt + factor) := by
  obtain ⟨_, hne, hlen, _⟩ := hv
  obtain ⟨cur2, hflush⟩ := flushN_run (pyLastTokenD hpre) hne
    (lastTokenChars_ws_free _) hlen factor hpre dspre cnt
    (pyLastToken_eq_of_ne hpre hne)
  rw [List.cons_append]
  simp only [maLoop, hmb, if_true]
  rw [hflush]
  simp only [if_true]
  rw [maLoop_data factor b.2 tail _ [b.1] _ hdb]
  rfl

lemma maLoop_first_block (factor : ℕ) (b : String × List String)
    (tail res : List String) (cnt : ℕ) (hmb : isMarker b.1 = true)
    (hdb : ∀ d ∈ b.2, isMarker d = false) :
    maLoop factor ((b.1 :: b.2) ++ tail) res [] cnt =
      maLoop factor tail res (b.1 :: b.2) cnt := by
  rw [List.cons_append]
  simp only [maLoop, hmb]
  rw [maLoop_data factor b.2 tail res [b.1] cnt hdb]
  rfl

/-- The tail of `multiply_aug` after some prefix of the loop has run:
finish the loop from the given state, then do the final unconditional
flush. -/
def runTail (factor : ℕ) (lines res cur : List String) (cnt : ℕ) :
    Except PyErr (List String) :=
  match maLoop factor lines res cur cnt with
  | .error e => .error e
  | .ok (res2, cur2, cnt2) =>
    match flushN factor cur2 cnt2 with
    | .error e => .error e
    | .ok (emitted, _, _) => .ok (res2 ++ emitted)

lemma multiply_aug_eq_runTail (data : List String) (factor : ℕ) :
    multiply_aug data factor = runTail factor data [] [] 0 := rfl

lemma runTail_congr (factor : ℕ) {l1 r1 c1 l2 r2 c2 : List String}
    {n1 n2 : ℕ}
    (h : maLoop factor l1 r1 c1 n1 = maLoop factor l2 r2 c2 n2) :
    runTail factor l1 r1 c1 n1 = runTail factor l2 r2 c2 n2 := by
  unfold runTail
  rw [h]

lemma runTail_blocks (factor : ℕ) :
    ∀ (bs : List (String × List String)) (hpre : String)
      (dspre res : List String) (cnt : ℕ),
      ValidBlock (hpre, dspre) → (∀ b ∈ bs, ValidBlock b) →
      runTail factor (flattenBlocks bs) res (hpre :: dspre) cnt =
        .ok (res ++ expectedAug factor (hpre, dspre) bs cnt)
  | [], hpre, dspre, res, cnt, hv, _ => by
    obtain ⟨_, hne, hlen, _⟩ := hv
    obtain ⟨cur2, hflush⟩ := flushN_run (pyLastTokenD hpre) hne
      (lastTokenChars_ws_free _) hlen factor hpre dspre cnt
      (pyLastToken_eq_of_ne hpre hne)
    unfold runTail
    rw [show maLoop factor (flattenBlocks []) res (hpre :: dspre) cnt =
      .ok (res, hpre :: dspre, cnt) from rfl]
    show (match flushN factor (hpre :: dspre) cnt with
          | Except.error e => Except.error e
          | Except.ok (emitted, _, _) => Except.ok (res ++ emitted)) = _
    rw [hflush]
    rfl
  | b :: bs, hpre, dspre, res, cnt, hv, hbs => by
    have hvb := hbs b (List.mem_cons_self _ _)
    have hstep := maLoop_step_block factor b (flattenBlocks bs) res hpre
      dspre cnt hvb.1 hvb.2.2.2 hv
    rw [show flattenBlocks (b :: bs) = (b.1 :: b.2) ++ flattenBlocks bs
      from rfl]
    rw [runTail_congr factor hstep]
    rw [runTail_blocks factor bs b.1 b.2
      (res ++ flushEmit factor cnt (pyLastTokenD hpre) dspre) (cnt + factor)
      hvb (fun x hx => hbs x (List.mem_cons_of_mem _ hx))]
    rw [List.append_assoc]
    rfl

/-- Claim C7 (amended): for one or more contiguous marker-introduced
blocks whose headers' trailing fields are at most 3 characters wide,
and any factor, the renumbering emits the blocks in input order, each
as `factor` contiguous copies; every copy's header is rewritten to
`mkHeader` of a strictly increasing, globally sequential 1-based
counter with the original trailing token, data lines are copied
verbatim (this is `expectedOut`), and each rewritten header's trailing
token is the original block's trailing token, i.e. the trailing field
is preserved. -/
theorem multiply_aug_renumbers (blocks : List (String × List String))
    (factor : ℕ) (_hf : 1 ≤ factor) (hne : blocks ≠ [])
    (hv : ∀ b ∈ blocks, ValidBlock b) :
    multiply_aug (flattenBlocks blocks) factor =
      .ok (expectedOut factor blocks) ∧
    ∀ b ∈ blocks, ∀ i, pyLastToken (mkHeader i (pyLastTokenD b.1)) =
      .ok (pyLastTokenD b.1) := by
  constructor
  · cases blocks with
    | nil => exact absurd rfl hne
    | cons b bs =>
      have hvb := hv b (List.mem_cons_self _ _)
      rw [multiply_aug_eq_runTail]
      have hfirst := maLoop_first_block factor b (flattenBlocks bs) [] 0
        hvb.1 hvb.2.2.2
      rw [show flattenBlocks (b :: bs) = (b.1 :: b.2) ++ flattenBlocks bs
        from rfl]
      rw [runTail_congr factor hfirst]
      rw [runTail_blocks factor bs b.1 b.2 [] 0 hvb
        (fun x hx => hv x (List.mem_cons_of_mem _ hx))]
      rfl
  · intro b hb i
    have hvb := hv b hb
    exact pyLastToken_mkHeader i (pyLastTokenD b.1) hvb.2.1
      (lastTokenChars_ws_free _) hvb.2.2.1

/-- Witness for C7's amended theorem on the spec's own two-block
example with factor 2: four copies, headers numbered 1–4 globally, the
trailing field 4 preserved, data lines grouped with their blocks. -/
theorem multiply_aug_renumbers_witness :
    multiply_aug ["augmentation occ 1 4", "0.1 0.2",
        "augmentation occ 2 4", "0.3 0.4"] 2 =
      .ok ["augmentation occupancies   1   4\n", "0.1 0.2",
           "augmentation occupancies   2   4\n", "0.1 0.2",
           "augmentation occupancies   3   4\n", "0.3 0.4",
           "augmentation occupancies   4   4\n", "0.3 0.4"] := by
  have h := (multiply_aug_renumbers
    [("augmentation occ 1 4", ["0.1 0.2"]),
     ("augmentation occ 2 4", ["0.3 0.4"])] 2
    (by norm_num) (by simp) (by decide)).1
  exact h.trans (by decide)

/-- Counterexample for C7 as stated: a 4-character trailing field
(`1234`) collides with the fixed-width 4-column counter — the first
emitted header's trailing token becomes `11234`, not the original
`1234`, and the second copy compounds the corruption — so the claim's
"trailing numeric field preserved unchanged" fails without the
width restriction. -/
theorem multiply_aug_wide_field_corrupted :
    multiply_aug ["augmentation occ 1 1234"] 2 =
      .ok ["augmentation occupancies   11234\n",
           "augmentation occupancies   211234\n"] ∧
    pyLastToken "augmentation occupancies   11234\n" = .ok "11234" ∧
    "11234" ≠ "1234" := by
  refine ⟨by decide, by decide, by decide⟩

end PyRho
